import Mathlib

/-!
# Nunix `watch` command (src/bin/watch.c)

A shallow embedding of `watch_command` and `delay_with_escape`.

Conventions.
* A C string is the list of its characters before the terminating NUL; a
  `const char *` that may be `NULL` is an `Option (List Char)`.
* `int` is a 32-bit signed integer: arithmetic that can overflow is wrapped by
  `wrap32`.
* The keyboard driver, the VGA driver and the command table are not part of
  the translated file.  The keyboard functions and the command table are the
  fields of `Env`, acting on an arbitrary world state `W`; the calls made to
  the VGA driver, to the keyboard and to command handlers are recorded, in
  program order, as a list of `Event`s.
-/

namespace Watch

/-! ## C library helpers -/

/-- The loop `while (*args == ' ') args++;`. -/
def skip_spaces : List Char → List Char
  | [] => []
  | c :: t => if c = ' ' then skip_spaces t else c :: t

/-- The test `strncmp(s, t, n) == 0`. -/
def strncmp_eq : List Char → List Char → Nat → Bool
  | _, _, 0 => true
  | [], [], _ + 1 => true
  | a :: s, b :: t, n + 1 => if a = b then strncmp_eq s t n else false
  | _, _, _ + 1 => false

/-- The characters `strncpy(dst, src, n)` copies from `src` (the NUL padding
that follows them when `src` is shorter than `n` is not represented). -/
def strncpy (src : List Char) (n : Nat) : List Char :=
  src.take n

/-- The offset of the first occurrence of `c` in `s`, as returned (in pointer
form) by `strchr(s, c)`; `none` is the `NULL` result. -/
def strchr : List Char → Char → Option Nat
  | [], _ => none
  | x :: t, c => if x = c then some 0 else (strchr t c).map (· + 1)

/-- The test `c >= '0' && c <= '9'`. -/
def is_digit (c : Char) : Bool :=
  decide ('0'.toNat ≤ c.toNat) && decide (c.toNat ≤ '9'.toNat)

/-- Reduction of an integer to the range of a 32-bit signed `int`. -/
def wrap32 (x : Int) : Int :=
  (x + 2 ^ 31) % 2 ^ 32 - 2 ^ 31

/-- Conversion of an `int` to `unsigned int`. -/
def to_unsigned (x : Int) : Nat :=
  (x % 2 ^ 32).toNat

/-- Conversion of an `int` to the character with that code (modulo 256). -/
def to_char (x : Int) : Char :=
  Char.ofNat (x % 256).toNat

/-! ## Argument parsing (watch.c, lines 21-49) -/

/-- The digit loop of lines 32-35: returns the accumulated `interval` and the
advanced `args`. -/
def scan_digits : Int → List Char → Int × List Char
  | interval, [] => (interval, [])
  | interval, c :: t =>
    if is_digit c then
      scan_digits (wrap32 (interval * 10 + ((c.toNat : Int) - ('0'.toNat : Int)))) t
    else (interval, c :: t)

/-- How the parsing loop of lines 26-44 is left. -/
inductive Parsed where
  /-- The `return` of line 38, after the invalid-interval message. -/
  | invalid : Parsed
  /-- Normal loop exit, with the values of `interval` and `command`. -/
  | done (interval : Int) (command : Option (List Char)) : Parsed
  deriving DecidableEq, Repr

/-- The loop of lines 26-44 for a non-null `args`.  The first argument bounds
the number of iterations; `none` means the bound was reached. -/
def parse_loop : Nat → Int → List Char → Option Parsed
  | 0, _, _ => none
  | fuel + 1, interval, args =>
    match args with
    | [] => some (Parsed.done interval none)
    | _ :: _ =>
      let args1 := skip_spaces args
      if strncmp_eq args1 "-n ".toList 3 then
        let r := scan_digits 0 (args1.drop 3)
        if r.1 ≤ 0 then some Parsed.invalid
        else parse_loop fuel r.1 r.2
      else some (Parsed.done interval (some args1))

/-- Lines 21-44: `command = NULL`, `interval = 2`, then the parsing loop.
Every iteration but the last consumes at least three characters, so the
length of the input bounds the number of iterations. -/
def parse_args : Option (List Char) → Option Parsed
  | none => some (Parsed.done 2 none)
  | some args => parse_loop (args.length + 1) 2 args

/-! ## The request (watch.c, lines 51-63) -/

/-- Capacity of `full_command` (`char full_command[256]`). -/
def FULL_COMMAND_SIZE : Nat := 256

/-- Capacity of `cmd_name` (`char cmd_name[32]`). -/
def CMD_NAME_SIZE : Nat := 32

/-- The local variables that are fixed once parsing is over. -/
structure Request where
  /-- The variable `interval`. -/
  interval : Int
  /-- The buffer `full_command`. -/
  full_command : List Char
  /-- The pointer `space`, as an offset into `full_command`. -/
  space : Option Nat
  /-- The characters copied into `cmd_name`. -/
  cmd_name : List Char
  deriving DecidableEq, Repr

/-- The number of characters `strncpy` is asked to write into `cmd_name`:
`space - full_command` at line 60, `sizeof(cmd_name)-1` at line 62. -/
def cmd_name_count (full_command : List Char) : Nat :=
  match strchr full_command ' ' with
  | some k => k
  | none => CMD_NAME_SIZE - 1

/-- Lines 52-63.  When the count passed at line 60 is `CMD_NAME_SIZE` or more,
the C program writes up to or past the end of `cmd_name`; the model keeps the
characters that were copied. -/
def build_request (interval : Int) (command : List Char) : Request :=
  let full_command := strncpy command (FULL_COMMAND_SIZE - 1)
  { interval := interval
    full_command := full_command
    space := strchr full_command ' '
    cmd_name := strncpy full_command (cmd_name_count full_command) }

/-- The value of `cmd_args` computed at lines 74-78. -/
def cmd_args (r : Request) : Option (List Char) :=
  match r.space with
  | some k => some (skip_spaces (r.full_command.drop (k + 1)))
  | none => none

/-- Outcome of lines 21-63. -/
inductive Outcome where
  /-- Return at line 38. -/
  | invalid_interval : Outcome
  /-- Return at line 48. -/
  | usage : Outcome
  /-- Line 65 is reached with these values. -/
  | request (r : Request) : Outcome
  deriving DecidableEq, Repr

/-- Lines 21-63: parsing, the two early returns, and the two buffers. -/
def parse_request (args : Option (List Char)) : Option Outcome :=
  match parse_args args with
  | none => none
  | some Parsed.invalid => some Outcome.invalid_interval
  | some (Parsed.done _ none) => some Outcome.usage
  | some (Parsed.done interval (some command)) =>
    match command with
    | [] => some Outcome.usage
    | _ :: _ => some (Outcome.request (build_request interval command))

/-! ## Environment and trace -/

/-- An entry of the `commands` table: its `name` and its handler `func`, which
receives the argument string (possibly `NULL`) and acts on the world. -/
structure Command (W : Type) where
  /-- The field `name`. -/
  name : List Char
  /-- The field `func`. -/
  func : Option (List Char) → W → W

/-- What `watch_command` consumes from the rest of the kernel. -/
structure Env (W : Type) where
  /-- The entries of `commands` that precede the entry whose `name` is `NULL`. -/
  commands : List (Command W)
  /-- The call `kb_check_escape()`. -/
  kb_check_escape : W → Bool × W
  /-- The call `kb_ctrl_pressed()`. -/
  kb_ctrl_pressed : W → Bool × W
  /-- The call `kb_getchar()`. -/
  kb_getchar : W → Char × W
  /-- The call `kb_flush()`. -/
  kb_flush : W → W

/-- The externally visible actions of `watch_command`, recorded in program
order. -/
inductive Event where
  /-- A call `vga_puts(s)`. -/
  | puts (s : List Char) : Event
  /-- A call `vga_putchar(c)`. -/
  | putchar (c : Char) : Event
  /-- Entry into the scan of `commands` (line 82) for `name`. -/
  | lookup (name : List Char) : Event
  /-- The call `cmd->func(cmd_args)` on the entry at position `index`. -/
  | call (index : Nat) (args : Option (List Char)) : Event
  /-- A call `kb_check_escape()` and its result. -/
  | check_escape (result : Bool) : Event
  /-- A call `kb_ctrl_pressed()` and its result. -/
  | ctrl_pressed (result : Bool) : Event
  /-- A call `kb_getchar()` and its result. -/
  | getchar (result : Char) : Event
  /-- A call `kb_flush()`. -/
  | flush : Event
  deriving DecidableEq, Repr

/-- The text an event sends to the screen. -/
def Event.text : Event → List Char
  | Event.puts s => s
  | Event.putchar c => [c]
  | _ => []

/-- The text a trace sends to the screen. -/
def output : List Event → List Char
  | [] => []
  | e :: rest => e.text ++ output rest

/-- Whether an event is a call into the keyboard driver. -/
def Event.is_keyboard : Event → Bool
  | Event.check_escape _ => true
  | Event.ctrl_pressed _ => true
  | Event.getchar _ => true
  | Event.flush => true
  | _ => false

/-- The message of line 37. -/
def MSG_INVALID_INTERVAL : List Char := "watch: invalid interval\n".toList

/-- The message of line 47. -/
def MSG_USAGE : List Char := "Usage: watch [-n sec] <command>\n".toList

/-- The message of lines 99 and 106. -/
def MSG_INTERRUPTED : List Char := "\n[watch interrupted]\n".toList

/-- The message of line 91. -/
def MSG_NOT_FOUND : List Char := "watch: command not found: ".toList

/-- The separator of line 111. -/
def MSG_SEPARATOR : List Char := "\n---\n".toList

/-! ## Cancellation check and delay (watch.c, lines 8-18 and 98) -/

/-- Result of a Boolean computation that talks to the keyboard. -/
structure Poll (W : Type) where
  /-- The value computed. -/
  result : Bool
  /-- The calls made. -/
  events : List Event
  /-- The world afterwards. -/
  world : W

/-- The condition of lines 12 and 98:
`kb_check_escape() || (kb_ctrl_pressed() && kb_getchar() == 'c')`, with the
short-circuit evaluation of `||` and `&&`. -/
def cancel_check {W : Type} (env : Env W) (w : W) : Poll W :=
  let e := env.kb_check_escape w
  if e.1 then ⟨true, [Event.check_escape true], e.2⟩
  else
    let c := env.kb_ctrl_pressed e.2
    if c.1 then
      let g := env.kb_getchar c.2
      ⟨decide (g.1 = 'c'), [Event.check_escape false, Event.ctrl_pressed true, Event.getchar g.1], g.2⟩
    else ⟨false, [Event.check_escape false, Event.ctrl_pressed false], c.2⟩

/-- The loop over `j` of lines 11-15, with `n` iterations left. -/
def delay_inner {W : Type} (env : Env W) : Nat → W → Poll W
  | 0, w => ⟨false, [], w⟩
  | n + 1, w =>
    let c := cancel_check env w
    if c.result then ⟨true, c.events, c.world⟩
    else
      let d := delay_inner env n c.world
      ⟨d.result, c.events ++ d.events, d.world⟩

/-- The loop over `i` of lines 10-16, with `n` iterations left. -/
def delay_outer {W : Type} (env : Env W) : Nat → W → Poll W
  | 0, w => ⟨false, [], w⟩
  | n + 1, w =>
    let d := delay_inner env 1000000 w
    if d.result then ⟨true, d.events, d.world⟩
    else
      let e := delay_outer env n d.world
      ⟨e.result, d.events ++ e.events, e.world⟩

/-- The function `delay_with_escape`; the result `true` is the C value 1. -/
def delay_with_escape {W : Type} (env : Env W) (seconds : Nat) (w : W) : Poll W :=
  delay_outer env seconds w

/-! ## The main loop (watch.c, lines 65-112) -/

/-- Lines 65-70. -/
def announce (r : Request) : List Event :=
  [Event.puts "Every ".toList]
    ++ (if 10 ≤ r.interval then
          [Event.putchar (to_char (('0'.toNat : Int) + Int.tdiv r.interval 10))]
        else [])
    ++ [Event.putchar (to_char (('0'.toNat : Int) + Int.tmod r.interval 10)),
        Event.puts "s: ".toList,
        Event.puts r.full_command,
        Event.puts "\n(Press ESC or Ctrl+C to stop)\n\n".toList]

/-- The scan of lines 82-88 over the entries from position `index` on: the
first entry for which `strcmp(cmd_name, cmd->name) == 0`, with its position. -/
def find_command {W : Type} (cmd_name : List Char) :
    List (Command W) → Nat → Option (Nat × Command W)
  | [], _ => none
  | cmd :: rest, index =>
    if cmd_name = cmd.name then some (index, cmd)
    else find_command cmd_name rest (index + 1)

/-- How a run of `watch_command` stands. -/
inductive Status where
  /-- Returned at line 48. -/
  | usage : Status
  /-- Returned at line 38. -/
  | invalid_interval : Status
  /-- Returned at line 94. -/
  | not_found : Status
  /-- Returned at line 101 or 108. -/
  | interrupted : Status
  /-- Still inside `while (1)` after the iterations that were run. -/
  | running : Status
  deriving DecidableEq, Repr

/-- A run: its status, its trace and the world it leaves. -/
structure Result (W : Type) where
  /-- The status. -/
  status : Status
  /-- The trace. -/
  events : List Event
  /-- The world. -/
  world : W

/-- One pass through the body of `while (1)` (lines 73-111).  A status other
than `running` is a `return`; `running` means line 111 was reached. -/
def iteration {W : Type} (env : Env W) (r : Request) (w : W) : Result W :=
  let args := cmd_args r
  match find_command r.cmd_name env.commands 0 with
  | none =>
    ⟨Status.not_found,
      [Event.lookup r.cmd_name, Event.puts MSG_NOT_FOUND, Event.puts r.cmd_name,
        Event.putchar '\n'], w⟩
  | some (index, cmd) =>
    let w1 := cmd.func args w
    let c := cancel_check env w1
    if c.result then
      ⟨Status.interrupted,
        [Event.lookup r.cmd_name, Event.call index args] ++ c.events
          ++ [Event.puts MSG_INTERRUPTED, Event.flush],
        env.kb_flush c.world⟩
    else
      let d := delay_with_escape env (to_unsigned r.interval) c.world
      if d.result then
        ⟨Status.interrupted,
          [Event.lookup r.cmd_name, Event.call index args] ++ c.events ++ d.events
            ++ [Event.puts MSG_INTERRUPTED, Event.flush],
          env.kb_flush d.world⟩
      else
        ⟨Status.running,
          [Event.lookup r.cmd_name, Event.call index args] ++ c.events ++ d.events
            ++ [Event.puts MSG_SEPARATOR],
          d.world⟩

/-- The loop `while (1)` of lines 72-112, run for at most `n` iterations. -/
def watch_loop {W : Type} (env : Env W) (r : Request) : Nat → W → Result W
  | 0, w => ⟨Status.running, [], w⟩
  | n + 1, w =>
    let s := iteration env r w
    match s.status with
    | Status.running =>
      let rest := watch_loop env r n s.world
      ⟨rest.status, s.events ++ rest.events, rest.world⟩
    | _ => s

/-- The function `watch_command`, its main loop run for at most `iterations`
iterations.  `none` only if the parsing loop exceeded its iteration bound. -/
def watch_command {W : Type} (env : Env W) (iterations : Nat)
    (args : Option (List Char)) (w : W) : Option (Result W) :=
  match parse_request args with
  | none => none
  | some Outcome.invalid_interval =>
    some ⟨Status.invalid_interval, [Event.puts MSG_INVALID_INTERVAL], w⟩
  | some Outcome.usage => some ⟨Status.usage, [Event.puts MSG_USAGE], w⟩
  | some (Outcome.request r) =>
    let l := watch_loop env r iterations w
    some ⟨l.status, announce r ++ l.events, l.world⟩

/-! ## Notions used to state the properties -/

/-- The number denoted by a string of decimal digits read after the digits
that gave `acc`. -/
def digits_from (acc : Nat) (d : List Char) : Nat :=
  d.foldl (fun a c => a * 10 + (c.toNat - '0'.toNat)) acc

/-- The number denoted by a string of decimal digits. -/
def digits_value (d : List Char) : Nat :=
  digits_from 0 d

/-- The first space-delimited token of a command line. -/
def first_token (c : List Char) : List Char :=
  c.takeWhile (fun x => x ≠ ' ')

/-- The text of one interval flag: `k` spaces, then `-n `, then the digits `d`. -/
def flag (k : Nat) (d : List Char) : List Char :=
  List.replicate k ' ' ++ ("-n ".toList ++ d)

/-- The text of a sequence of interval flags, each given by its number of
leading spaces and its digits. -/
def flags : List (Nat × List Char) → List Char
  | [] => []
  | p :: rest => flag p.1 p.2 ++ flags rest

/-- The value of `interval` after a sequence of accepted flags, `i` being its
value before them. -/
def last_interval (i : Int) (pre : List (Nat × List Char)) : Int :=
  pre.foldl (fun _ p => wrap32 (digits_value p.2)) i

/-- A digit string the parser accepts as an interval: its value, reduced to a
32-bit `int`, is positive. -/
def valid_digits (d : List Char) : Prop :=
  (∀ x ∈ d, is_digit x = true) ∧ 0 < wrap32 (digits_value d)

/-- Whether the text begins with a decimal digit. -/
def leading_digit : List Char → Bool
  | [] => false
  | c :: _ => is_digit c

/-- A command table with three entries, two of them named `echo`, whose
handlers add 1, 10 and 100 to a counter; a keyboard on which escape reads as
pressed once the counter exceeds 25, control is never held, and the flush
resets the counter. -/
def sample_env : Env Nat :=
  { commands :=
      [⟨"ec".toList, fun _ w => w + 1⟩, ⟨"echo".toList, fun _ w => w + 10⟩,
        ⟨"echo".toList, fun _ w => w + 100⟩]
    kb_check_escape := fun w => (decide (25 < w), w)
    kb_ctrl_pressed := fun w => (false, w)
    kb_getchar := fun w => ('c', w)
    kb_flush := fun _ => 0 }

/-- A keyboard whose state is the pending input: escape never reads as
pressed, control is always held, `kb_getchar` removes and returns the first
pending character (NUL when there is none), and the flush empties the input.
The command table is empty. -/
def typing_env : Env (List Char) :=
  { commands := []
    kb_check_escape := fun w => (false, w)
    kb_ctrl_pressed := fun w => (true, w)
    kb_getchar := fun w => (w.headD (Char.ofNat 0), w.tail)
    kb_flush := fun _ => [] }

/-- Whether an event is a call `kb_check_escape()`; every evaluation of the
cancellation condition makes exactly one. -/
def Event.is_check : Event → Bool
  | Event.check_escape _ => true
  | _ => false

/-- Whether an event is one of the three keyboard queries the cancellation
condition can make. -/
def Event.is_poll : Event → Bool
  | Event.check_escape _ => true
  | Event.ctrl_pressed _ => true
  | Event.getchar _ => true
  | _ => false

/-- The number of evaluations of the cancellation condition in a trace. -/
def checks (evs : List Event) : Nat :=
  evs.countP Event.is_check

/-- The number of calls `kb_flush()` in a trace. -/
def flushes (evs : List Event) : Nat :=
  evs.count Event.flush

/-- The world after `k` consecutive evaluations of the cancellation condition. -/
def world_after {W : Type} (env : Env W) : Nat → W → W
  | 0, w => w
  | k + 1, w => world_after env k (cancel_check env w).world

/-- The outcome of the evaluation number `k` (from 0) in a sequence of
consecutive evaluations of the cancellation condition. -/
def outcome {W : Type} (env : Env W) (w : W) (k : Nat) : Bool :=
  (cancel_check env (world_after env k w)).result

/-- A keyboard whose state counts the calls of `kb_check_escape`: escape reads
as pressed from the fourth call on, control is never held.  The table has the
single command `echo`. -/
def counting_env : Env Nat :=
  { commands := [⟨"echo".toList, fun _ w => w⟩]
    kb_check_escape := fun w => (decide (3 ≤ w), w + 1)
    kb_ctrl_pressed := fun w => (false, w)
    kb_getchar := fun w => ('c', w)
    kb_flush := fun w => w }

theorem flag_text : "-n ".toList = ['-', 'n', ' '] := rfl

theorem skip_spaces_eq (s : List Char) :
    skip_spaces s = s.dropWhile (fun x => x = ' ') := by
  induction s with
  | nil => rfl
  | cons c t ih =>
    by_cases h : c = ' '
    · simp [skip_spaces, h, ih]
    · simp [skip_spaces, h]

theorem skip_spaces_length (s : List Char) : (skip_spaces s).length ≤ s.length := by
  induction s with
  | nil => simp [skip_spaces]
  | cons c t ih =>
    by_cases h : c = ' '
    · simp [skip_spaces, h]; omega
    · simp [skip_spaces, h]

theorem skip_spaces_replicate (k : Nat) (s : List Char) :
    skip_spaces (List.replicate k ' ' ++ s) = skip_spaces s := by
  induction k with
  | zero => simp
  | succ k ih => simp [List.replicate_succ, skip_spaces, ih]

theorem skip_spaces_of_head (s : List Char) (h : s.head? ≠ some ' ') :
    skip_spaces s = s := by
  cases s with
  | nil => rfl
  | cons c t =>
    have hc : c ≠ ' ' := by
      intro hc; apply h; simp [hc]
    simp [skip_spaces, hc]

theorem strncmp_flag (s : List Char) :
    strncmp_eq s "-n ".toList 3 = true ↔ "-n ".toList <+: s := by
  rw [flag_text]
  rcases s with _ | ⟨a, _ | ⟨b, _ | ⟨c, t⟩⟩⟩
  · simp [strncmp_eq]
  · simp [strncmp_eq]
  · simp [strncmp_eq]
  · simp only [strncmp_eq]
    constructor
    · intro h
      by_cases ha : a = '-'
      · by_cases hb : b = 'n'
        · by_cases hc : c = ' '
          · subst ha hb hc
            exact ⟨t, rfl⟩
          · simp [ha, hb, hc] at h
        · simp [ha, hb] at h
      · simp [ha] at h
    · rintro ⟨u, hu⟩
      simp only [List.cons_append, List.nil_append, List.cons.injEq] at hu
      obtain ⟨ha, hb, hc, -⟩ := hu
      subst ha hb hc
      simp

theorem strncmp_flag_drop (s : List Char) (h : strncmp_eq s "-n ".toList 3 = true) :
    s = "-n ".toList ++ s.drop 3 := by
  obtain ⟨u, hu⟩ := (strncmp_flag s).1 h
  rw [← hu, flag_text]
  rfl

theorem wrap32_step (a b : Int) : wrap32 (wrap32 a * 10 + b) = wrap32 (a * 10 + b) := by
  unfold wrap32
  omega

theorem wrap32_of_range (a : Int) (h0 : 0 ≤ a) (h1 : a ≤ 2 ^ 31 - 1) : wrap32 a = a := by
  unfold wrap32
  omega

theorem is_digit_sub (c : Char) (h : is_digit c = true) :
    ((c.toNat : Int) - ('0'.toNat : Int)) = ((c.toNat - '0'.toNat : Nat) : Int) := by
  simp only [is_digit, Bool.and_eq_true, decide_eq_true_eq] at h
  omega

theorem scan_digits_length (i : Int) (s : List Char) :
    (scan_digits i s).2.length ≤ s.length := by
  induction s generalizing i with
  | nil => simp [scan_digits]
  | cons c t ih =>
    by_cases h : is_digit c = true
    · simp only [scan_digits, h, if_true, List.length_cons]
      exact Nat.le_succ_of_le (ih _)
    · simp [scan_digits, h]

theorem scan_digits_append (i : Int) (d rest : List Char)
    (hd : ∀ x ∈ d, is_digit x = true) (hrest : leading_digit rest = false) :
    scan_digits i (d ++ rest) = ((scan_digits i d).1, rest) := by
  induction d generalizing i with
  | nil =>
    cases rest with
    | nil => simp [scan_digits]
    | cons c t =>
      have hc : is_digit c = false := hrest
      simp [scan_digits, hc]
  | cons c t ih =>
    have hc : is_digit c = true := hd c (by simp)
    have ht : ∀ x ∈ t, is_digit x = true := fun x hx => hd x (by simp [hx])
    simp only [List.cons_append, scan_digits, hc, if_true]
    exact ih _ ht

theorem scan_digits_value (a : Nat) (d : List Char) (hd : ∀ x ∈ d, is_digit x = true) :
    (scan_digits (wrap32 a) d).1 = wrap32 (digits_from a d) := by
  induction d generalizing a with
  | nil => rfl
  | cons c t ih =>
    have hc : is_digit c = true := hd c (by simp)
    have ht : ∀ x ∈ t, is_digit x = true := fun x hx => hd x (by simp [hx])
    have e1 : scan_digits (wrap32 a) (c :: t) =
        scan_digits (wrap32 (wrap32 a * 10 + ((c.toNat : Int) - ('0'.toNat : Int)))) t := by
      rw [scan_digits, if_pos hc]
    have e2 : digits_from a (c :: t) = digits_from (a * 10 + (c.toNat - '0'.toNat)) t := by
      rw [digits_from, List.foldl_cons]; rfl
    rw [e1, e2, wrap32_step, is_digit_sub c hc, ← ih (a * 10 + (c.toNat - '0'.toNat)) ht]
    congr 3

theorem scan_digits_zero (d : List Char) (hd : ∀ x ∈ d, is_digit x = true) :
    (scan_digits 0 d).1 = wrap32 (digits_value d) := by
  have h := scan_digits_value 0 d hd
  have h0 : wrap32 ((0 : Nat) : Int) = 0 := by decide
  rw [h0] at h
  exact h

theorem digits_value_zeros (z : List Char) (hz : ∀ x ∈ z, x = '0') : digits_value z = 0 := by
  induction z with
  | nil => rfl
  | cons c t ih =>
    have hc : c = '0' := hz c (by simp)
    subst hc
    have ht : ∀ x ∈ t, x = '0' := fun x hx => hz x (by simp [hx])
    have e : digits_value ('0' :: t) = digits_value t := by
      rw [digits_value, digits_from, List.foldl_cons]; rfl
    rw [e]
    exact ih ht

theorem is_digit_zero : is_digit '0' = true := by decide

/-! ## Lemmas on the parsing loop -/

theorem parse_loop_nil (fuel : Nat) (i : Int) :
    parse_loop (fuel + 1) i [] = some (Parsed.done i none) := rfl

theorem parse_loop_cons (fuel : Nat) (i : Int) (s : List Char) (hs : s ≠ []) :
    parse_loop (fuel + 1) i s =
      if strncmp_eq (skip_spaces s) "-n ".toList 3 then
        if (scan_digits 0 ((skip_spaces s).drop 3)).1 ≤ 0 then some Parsed.invalid
        else parse_loop fuel (scan_digits 0 ((skip_spaces s).drop 3)).1
          (scan_digits 0 ((skip_spaces s).drop 3)).2
      else some (Parsed.done i (some (skip_spaces s))) := by
  cases s with
  | nil => exact absurd rfl hs
  | cons c t => rfl

theorem parse_loop_total (fuel : Nat) (i : Int) (s : List Char) (h : s.length < fuel) :
    ∃ r, parse_loop fuel i s = some r := by
  induction fuel generalizing i s with
  | zero => omega
  | succ fuel ih =>
    by_cases hs : s = []
    · subst hs; exact ⟨_, rfl⟩
    · rw [parse_loop_cons fuel i s hs]
      by_cases hf : strncmp_eq (skip_spaces s) "-n ".toList 3 = true
      · rw [if_pos hf]
        by_cases hi : (scan_digits 0 ((skip_spaces s).drop 3)).1 ≤ 0
        · rw [if_pos hi]; exact ⟨_, rfl⟩
        · rw [if_neg hi]
          apply ih
          have h1 := scan_digits_length 0 ((skip_spaces s).drop 3)
          have h2 := skip_spaces_length s
          have h3 : (skip_spaces s).length = 3 + ((skip_spaces s).drop 3).length := by
            conv_lhs => rw [strncmp_flag_drop _ hf]
            rw [List.length_append]
            rfl
          omega
      · rw [if_neg hf]; exact ⟨_, rfl⟩

theorem parse_loop_mono (fuel : Nat) (i : Int) (s : List Char) (r : Parsed)
    (h : parse_loop fuel i s = some r) (k : Nat) : parse_loop (fuel + k) i s = some r := by
  induction fuel generalizing i s with
  | zero => simp [parse_loop] at h
  | succ fuel ih =>
    have e : fuel + 1 + k = (fuel + k) + 1 := by omega
    rw [e]
    by_cases hs : s = []
    · subst hs
      rw [parse_loop_nil] at h ⊢
      exact h
    · rw [parse_loop_cons _ i s hs] at h ⊢
      by_cases hf : strncmp_eq (skip_spaces s) "-n ".toList 3 = true
      · rw [if_pos hf] at h ⊢
        by_cases hi : (scan_digits 0 ((skip_spaces s).drop 3)).1 ≤ 0
        · rw [if_pos hi] at h ⊢; exact h
        · rw [if_neg hi] at h ⊢; exact ih _ _ h
      · rw [if_neg hf] at h ⊢; exact h

/-- A result obtained with some iteration bound is the result of `parse_args`. -/
theorem parse_args_of_loop (fuel : Nat) (s : List Char) (r : Parsed)
    (h : parse_loop fuel 2 s = some r) : parse_args (some s) = some r := by
  obtain ⟨r1, h1⟩ := parse_loop_total (s.length + 1) 2 s (Nat.lt_succ_self _)
  have e1 := parse_loop_mono _ _ _ _ h (s.length + 1)
  have e2 := parse_loop_mono _ _ _ _ h1 fuel
  have e : fuel + (s.length + 1) = s.length + 1 + fuel := by omega
  rw [e, e2] at e1
  show parse_loop (s.length + 1) 2 s = some r
  rw [h1, e1]

theorem parse_request_total (args : Option (List Char)) : ∃ o, parse_request args = some o := by
  cases args with
  | none => exact ⟨_, rfl⟩
  | some s =>
    obtain ⟨r, hr⟩ := parse_loop_total (s.length + 1) 2 s (Nat.lt_succ_self _)
    have hp : parse_args (some s) = some r := hr
    unfold parse_request
    rw [hp]
    cases r with
    | invalid => exact ⟨_, rfl⟩
    | done i c =>
      cases c with
      | none => exact ⟨_, rfl⟩
      | some cmd =>
        cases cmd with
        | nil => exact ⟨_, rfl⟩
        | cons x t => exact ⟨_, rfl⟩

/-! ## Lemmas on flags -/

theorem no_leading_digit_nil : leading_digit [] = false := rfl

theorem no_leading_digit_cons (c : Char) (t : List Char) (h : is_digit c = false) :
    leading_digit (c :: t) = false := h

theorem no_leading_digit_flag (k : Nat) (d rest : List Char) :
    leading_digit (flag k d ++ rest) = false := by
  cases k with
  | zero => exact no_leading_digit_cons _ _ (by decide)
  | succ k => exact no_leading_digit_cons _ _ (by decide)

theorem no_leading_digit_flags (pre : List (Nat × List Char)) (rest : List Char)
    (h : leading_digit rest = false) : leading_digit (flags pre ++ rest) = false := by
  cases pre with
  | nil => exact h
  | cons p ps =>
    show leading_digit (flag p.1 p.2 ++ flags ps ++ rest) = false
    rw [List.append_assoc]
    exact no_leading_digit_flag _ _ _

theorem no_leading_digit_spaces (k : Nat) : leading_digit (List.replicate k ' ') = false := by
  cases k with
  | zero => exact no_leading_digit_nil
  | succ k => exact no_leading_digit_cons _ _ (by decide)

theorem flag_ne_nil (k : Nat) (d rest : List Char) : flag k d ++ rest ≠ [] := by
  cases k with
  | zero => simp [flag, flag_text]
  | succ k => simp [flag, List.replicate_succ]

theorem skip_spaces_flag (k : Nat) (d rest : List Char) :
    skip_spaces (flag k d ++ rest) = "-n ".toList ++ (d ++ rest) := by
  unfold flag
  rw [List.append_assoc, skip_spaces_replicate, List.append_assoc]
  rfl

theorem strncmp_flag_append (s : List Char) : strncmp_eq ("-n ".toList ++ s) "-n ".toList 3 = true :=
  (strncmp_flag _).2 ⟨s, rfl⟩

theorem parse_loop_flag (fuel : Nat) (i : Int) (k : Nat) (d rest : List Char)
    (hd : ∀ x ∈ d, is_digit x = true) (hrest : leading_digit rest = false) :
    parse_loop (fuel + 1) i (flag k d ++ rest) =
      if wrap32 (digits_value d) ≤ 0 then some Parsed.invalid
      else parse_loop fuel (wrap32 (digits_value d)) rest := by
  rw [parse_loop_cons fuel i _ (flag_ne_nil k d rest), skip_spaces_flag,
    if_pos (strncmp_flag_append _)]
  have e : ("-n ".toList ++ (d ++ rest)).drop 3 = d ++ rest := rfl
  rw [e, scan_digits_append 0 d rest hd hrest, scan_digits_zero d hd]

theorem parse_loop_command (fuel : Nat) (i : Int) (s : List Char)
    (hne : skip_spaces s ≠ []) (hflag : ¬ "-n ".toList <+: skip_spaces s) :
    parse_loop (fuel + 1) i s = some (Parsed.done i (some (skip_spaces s))) := by
  have hs : s ≠ [] := by
    intro h; apply hne; rw [h]; rfl
  have hf : ¬ strncmp_eq (skip_spaces s) "-n ".toList 3 = true :=
    fun h => hflag ((strncmp_flag _).1 h)
  rw [parse_loop_cons fuel i s hs, if_neg hf]

theorem parse_loop_spaces (fuel : Nat) (i : Int) (k : Nat) :
    parse_loop (fuel + 1) i (List.replicate k ' ') = some (Parsed.done i none) ∨
      parse_loop (fuel + 1) i (List.replicate k ' ') = some (Parsed.done i (some [])) := by
  cases k with
  | zero => exact Or.inl rfl
  | succ k =>
    right
    have hs : List.replicate (k + 1) ' ' ≠ [] := by simp [List.replicate_succ]
    have e : skip_spaces (List.replicate (k + 1) ' ') = [] := by
      have := skip_spaces_replicate (k + 1) []
      rw [List.append_nil] at this
      rw [this]; rfl
    rw [parse_loop_cons fuel i _ hs, e]
    rfl

theorem last_interval_cons (i : Int) (p : Nat × List Char) (ps : List (Nat × List Char)) :
    last_interval i (p :: ps) = last_interval (wrap32 (digits_value p.2)) ps := by
  rw [last_interval, List.foldl_cons]; rfl

/-- Accepted flags are consumed one per iteration of the parsing loop. -/
theorem parse_loop_flags (pre : List (Nat × List Char)) (rest : List Char)
    (hpre : ∀ p ∈ pre, valid_digits p.2) (hrest : leading_digit rest = false)
    (fuel : Nat) (i : Int) :
    parse_loop (pre.length + fuel) i (flags pre ++ rest) =
      parse_loop fuel (last_interval i pre) rest := by
  induction pre generalizing i with
  | nil => simp [flags, last_interval]
  | cons p ps ih =>
    have hp : valid_digits p.2 := hpre p (by simp)
    have hps : ∀ q ∈ ps, valid_digits q.2 := fun q hq => hpre q (by simp [hq])
    have e1 : (p :: ps).length + fuel = (ps.length + fuel) + 1 := by
      simp only [List.length_cons]; omega
    have e2 : flags (p :: ps) ++ rest = flag p.1 p.2 ++ (flags ps ++ rest) := by
      show flag p.1 p.2 ++ flags ps ++ rest = _
      rw [List.append_assoc]
    rw [e1, e2, parse_loop_flag _ _ _ _ _ hp.1 (no_leading_digit_flags ps rest hrest),
      if_neg (not_le.2 hp.2), ih hps, last_interval_cons]

/-- A flag with no digits or only zeros makes the parsing loop return the
invalid-interval result, whatever flags precede it. -/
theorem parse_loop_zero_flag (pre : List (Nat × List Char)) (k : Nat) (z rest : List Char)
    (hpre : ∀ p ∈ pre, ∀ x ∈ p.2, is_digit x = true) (hz : ∀ x ∈ z, x = '0')
    (hrest : leading_digit rest = false) (fuel : Nat) (i : Int) :
    parse_loop (pre.length + 1 + fuel) i (flags pre ++ (flag k z ++ rest)) =
      some Parsed.invalid := by
  induction pre generalizing i with
  | nil =>
    have hd : ∀ x ∈ z, is_digit x = true := fun x hx => by
      rw [hz x hx]; exact is_digit_zero
    have e1 : ([] : List (Nat × List Char)).length + 1 + fuel = fuel + 1 := by
      simp only [List.length_nil]; omega
    have e2 : flags [] ++ (flag k z ++ rest) = flag k z ++ rest := rfl
    rw [e1, e2, parse_loop_flag _ _ _ _ _ hd hrest, digits_value_zeros z hz]
    rfl
  | cons p ps ih =>
    have hp : ∀ x ∈ p.2, is_digit x = true := hpre p (by simp)
    have hps : ∀ q ∈ ps, ∀ x ∈ q.2, is_digit x = true := fun q hq => hpre q (by simp [hq])
    have e1 : (p :: ps).length + 1 + fuel = (ps.length + 1 + fuel) + 1 := by
      simp only [List.length_cons]; omega
    have e2 : flags (p :: ps) ++ (flag k z ++ rest) =
        flag p.1 p.2 ++ (flags ps ++ (flag k z ++ rest)) := by
      show flag p.1 p.2 ++ flags ps ++ (flag k z ++ rest) = _
      rw [List.append_assoc]
    rw [e1, e2, parse_loop_flag _ _ _ _ _ hp
      (no_leading_digit_flags ps _ (no_leading_digit_flag k z rest)), ih hps]
    simp

theorem parse_loop_pos (fuel : Nat) (i : Int) (s : List Char) (j : Int)
    (c : Option (List Char)) (h : parse_loop fuel i s = some (Parsed.done j c))
    (hi : 0 < i) : 0 < j := by
  induction fuel generalizing i s with
  | zero => simp [parse_loop] at h
  | succ fuel ih =>
    by_cases hs : s = []
    · subst hs
      rw [parse_loop_nil] at h
      simp only [Option.some.injEq, Parsed.done.injEq] at h
      omega
    · rw [parse_loop_cons fuel i s hs] at h
      by_cases hf : strncmp_eq (skip_spaces s) "-n ".toList 3 = true
      · rw [if_pos hf] at h
        by_cases hz : (scan_digits 0 ((skip_spaces s).drop 3)).1 ≤ 0
        · rw [if_pos hz] at h
          simp at h
        · rw [if_neg hz] at h
          exact ih _ _ h (not_le.1 hz)
      · rw [if_neg hf] at h
        simp only [Option.some.injEq, Parsed.done.injEq] at h
        omega

/-! ## Lemmas on the request -/

theorem strchr_some_take (s : List Char) (k : Nat) (h : strchr s ' ' = some k) :
    s.take k = first_token s := by
  induction s generalizing k with
  | nil => simp [strchr] at h
  | cons c t ih =>
    by_cases hc : c = ' '
    · subst hc
      simp only [strchr, if_true, Option.some.injEq] at h
      subst h
      simp [first_token]
    · simp only [strchr, hc, if_false, Option.map_eq_some'] at h
      obtain ⟨j, hj, rfl⟩ := h
      have := ih j hj
      simp only [first_token] at this ⊢
      simp [hc, this]

theorem strchr_none_token (s : List Char) (h : strchr s ' ' = none) : first_token s = s := by
  induction s with
  | nil => rfl
  | cons c t ih =>
    by_cases hc : c = ' '
    · subst hc
      simp [strchr] at h
    · simp only [strchr, hc, if_false, Option.map_eq_none'] at h
      have := ih h
      simp only [first_token] at this ⊢
      rw [List.takeWhile_cons_of_pos (by simpa using hc), this]

theorem parse_request_of_command (s c : List Char) (i : Int) (hc : c ≠ [])
    (h : parse_args (some s) = some (Parsed.done i (some c))) :
    parse_request (some s) = some (Outcome.request (build_request i c)) := by
  unfold parse_request
  rw [h]
  cases c with
  | nil => exact absurd rfl hc
  | cons x t => rfl

theorem build_request_short (i : Int) (c : List Char) (hlen : c.length ≤ 255)
    (htok : (first_token c).length ≤ 31) :
    build_request i c =
      { interval := i, full_command := c, space := strchr c ' ', cmd_name := first_token c } := by
  have e : strncpy c (FULL_COMMAND_SIZE - 1) = c := List.take_of_length_le hlen
  unfold build_request
  simp only [e]
  congr 1
  unfold cmd_name_count strncpy
  cases hs : strchr c ' ' with
  | some k => exact strchr_some_take c k hs
  | none =>
    have ht := strchr_none_token c hs
    rw [ht] at htok
    exact (List.take_of_length_le htok).trans ht.symm

/-! ## Lemmas on traces -/

theorem keyboard_announce (r : Request) : ∀ e ∈ announce r, e.is_keyboard = false := by
  unfold announce
  split <;> simp [Event.is_keyboard]

theorem cancel_check_escape {W : Type} (env : Env W) (w : W)
    (h : (env.kb_check_escape w).1 = true) :
    cancel_check env w = ⟨true, [Event.check_escape true], (env.kb_check_escape w).2⟩ := by
  simp [cancel_check, h]

theorem cancel_check_ctrl {W : Type} (env : Env W) (w : W)
    (h : (env.kb_check_escape w).1 = false)
    (hc : (env.kb_ctrl_pressed (env.kb_check_escape w).2).1 = true) :
    cancel_check env w =
      ⟨decide ((env.kb_getchar (env.kb_ctrl_pressed (env.kb_check_escape w).2).2).1 = 'c'),
        [Event.check_escape false, Event.ctrl_pressed true,
          Event.getchar (env.kb_getchar (env.kb_ctrl_pressed (env.kb_check_escape w).2).2).1],
        (env.kb_getchar (env.kb_ctrl_pressed (env.kb_check_escape w).2).2).2⟩ := by
  simp [cancel_check, h, hc]

theorem cancel_check_idle {W : Type} (env : Env W) (w : W)
    (h : (env.kb_check_escape w).1 = false)
    (hc : (env.kb_ctrl_pressed (env.kb_check_escape w).2).1 = false) :
    cancel_check env w =
      ⟨false, [Event.check_escape false, Event.ctrl_pressed false],
        (env.kb_ctrl_pressed (env.kb_check_escape w).2).2⟩ := by
  simp [cancel_check, h, hc]

theorem iteration_not_found {W : Type} (env : Env W) (r : Request) (w : W)
    (h : find_command r.cmd_name env.commands 0 = none) :
    iteration env r w =
      ⟨Status.not_found,
        [Event.lookup r.cmd_name, Event.puts MSG_NOT_FOUND, Event.puts r.cmd_name,
          Event.putchar '\n'], w⟩ := by
  unfold iteration
  simp only [h]

theorem watch_command_of_invalid {W : Type} (env : Env W) (n : Nat) (args : Option (List Char))
    (w : W) (h : parse_request args = some Outcome.invalid_interval) :
    watch_command env n args w =
      some ⟨Status.invalid_interval, [Event.puts MSG_INVALID_INTERVAL], w⟩ := by
  unfold watch_command
  rw [h]

theorem watch_command_of_usage {W : Type} (env : Env W) (n : Nat) (args : Option (List Char))
    (w : W) (h : parse_request args = some Outcome.usage) :
    watch_command env n args w = some ⟨Status.usage, [Event.puts MSG_USAGE], w⟩ := by
  unfold watch_command
  rw [h]

theorem watch_command_of_request {W : Type} (env : Env W) (n : Nat) (args : Option (List Char))
    (w : W) (r : Request) (h : parse_request args = some (Outcome.request r)) :
    watch_command env n args w =
      some ⟨(watch_loop env r n w).status, announce r ++ (watch_loop env r n w).events,
        (watch_loop env r n w).world⟩ := by
  unfold watch_command
  rw [h]

/-- The iteration bound of the parsing loop is never reached: `watch_command`
has a result for every input and every number of main-loop iterations. -/
theorem watch_command_total {W : Type} (env : Env W) (n : Nat) (args : Option (List Char))
    (w : W) : ∃ res, watch_command env n args w = some res := by
  obtain ⟨o, ho⟩ := parse_request_total args
  cases o with
  | invalid_interval => exact ⟨_, watch_command_of_invalid env n args w ho⟩
  | usage => exact ⟨_, watch_command_of_usage env n args w ho⟩
  | request r => exact ⟨_, watch_command_of_request env n args w r ho⟩

/-- C1: for a digit string `d` with value in `1 .. 2^31-1` and a command line
`c` that is non-empty, starts neither with a space nor with `-n `, has at most
255 characters and a first token of at most 31 characters, parsing
`"-n " ++ d ++ " " ++ c` yields the interval `d` denotes, the command line `c`
and the command name `first_token c`. -/
theorem C1_flag_then_command (d c : List Char)
    (hd : ∀ x ∈ d, is_digit x = true)
    (hlo : 1 ≤ digits_value d) (hhi : digits_value d ≤ 2 ^ 31 - 1)
    (hne : c ≠ []) (hsp : c.head? ≠ some ' ') (hflag : ¬ "-n ".toList <+: c)
    (hlen : c.length ≤ 255) (htok : (first_token c).length ≤ 31) :
    parse_request (some ("-n ".toList ++ d ++ " ".toList ++ c)) =
      some (Outcome.request
        { interval := (digits_value d : Int)
          full_command := c
          space := strchr c ' '
          cmd_name := first_token c }) := by
  have hw : wrap32 (digits_value d) = (digits_value d : Int) :=
    wrap32_of_range _ (by omega) (by omega)
  have e : "-n ".toList ++ d ++ " ".toList ++ c = flag 0 d ++ (' ' :: c) := by
    simp [flag]
  have hsk : skip_spaces (' ' :: c) = c := by
    have : skip_spaces (' ' :: c) = skip_spaces c := by simp [skip_spaces]
    rw [this, skip_spaces_of_head c hsp]
  have h1 : parse_loop 2 2 (flag 0 d ++ (' ' :: c)) =
      some (Parsed.done (digits_value d : Int) (some c)) := by
    rw [parse_loop_flag 1 2 0 d (' ' :: c) hd (no_leading_digit_cons _ _ (by decide)), hw,
      if_neg (by omega)]
    have h2 := parse_loop_command 0 (digits_value d : Int) (' ' :: c)
      (by rw [hsk]; exact hne) (by rw [hsk]; exact hflag)
    rw [hsk] at h2
    exact h2
  rw [e, parse_request_of_command _ c _ hne (parse_args_of_loop 2 _ _ h1),
    build_request_short _ c hlen htok]

theorem C1_witness :
    parse_request (some "-n 5 echo hi".toList) =
        some (Outcome.request
          { interval := 5, full_command := "echo hi".toList, space := some 4,
            cmd_name := "echo".toList }) ∧
      cmd_args { interval := 5, full_command := "echo hi".toList, space := some 4,
                 cmd_name := "echo".toList } = some "hi".toList :=
  ⟨C1_flag_then_command ['5'] "echo hi".toList (by decide) (by decide) (by decide) (by decide)
    (by decide) (by decide) (by decide) (by decide), by decide⟩

/-- C2: when the text after the leading spaces is non-empty and does not begin
with `-n `, parsing yields the default interval 2 and, as command line, that
text cut to 255 characters, whatever it contains further on. -/
theorem C2_no_flag (s : List Char)
    (hne : s.dropWhile (fun x => x = ' ') ≠ [])
    (hflag : ¬ "-n ".toList <+: s.dropWhile (fun x => x = ' ')) :
    parse_request (some s) =
        some (Outcome.request (build_request 2 (s.dropWhile (fun x => x = ' ')))) ∧
      (build_request 2 (s.dropWhile (fun x => x = ' '))).interval = 2 ∧
      (build_request 2 (s.dropWhile (fun x => x = ' '))).full_command =
        (s.dropWhile (fun x => x = ' ')).take 255 := by
  refine ⟨?_, rfl, rfl⟩
  rw [← skip_spaces_eq] at hne hflag ⊢
  exact parse_request_of_command s _ 2 hne
    (parse_args_of_loop 1 _ _ (parse_loop_command 0 2 s hne hflag))

theorem C2_witness :
    parse_request (some "echo hi".toList) =
        some (Outcome.request
          { interval := 2, full_command := "echo hi".toList, space := some 4,
            cmd_name := "echo".toList }) ∧
      parse_request (some "echo -n 5".toList) =
        some (Outcome.request
          { interval := 2, full_command := "echo -n 5".toList, space := some 4,
            cmd_name := "echo".toList }) :=
  ⟨(C2_no_flag "echo hi".toList (by decide) (by decide)).1,
    (C2_no_flag "echo -n 5".toList (by decide) (by decide)).1⟩

/-- C3: when a `-n ` flag that follows only other flags has no digits, or
digits that are all zero, `watch_command` makes the single call
`vga_puts("watch: invalid interval\n")` and returns, whatever follows the
flag: the trace holds no other output, no lookup, no handler call and no
keyboard call. -/
theorem C3_invalid_interval {W : Type} (env : Env W) (n : Nat) (w : W)
    (pre : List (Nat × List Char)) (k : Nat) (z rest : List Char)
    (hpre : ∀ p ∈ pre, ∀ x ∈ p.2, is_digit x = true)
    (hz : ∀ x ∈ z, x = '0') (hrest : leading_digit rest = false) :
    watch_command env n (some (flags pre ++ (flag k z ++ rest))) w =
      some ⟨Status.invalid_interval, [Event.puts "watch: invalid interval\n".toList], w⟩ := by
  apply watch_command_of_invalid
  have h := parse_args_of_loop _ _ _ (parse_loop_zero_flag pre k z rest hpre hz hrest 0 2)
  unfold parse_request
  rw [h]

theorem C3_witness :
    watch_command sample_env 3 (some "-n abc rest".toList) 0 =
      some ⟨Status.invalid_interval, [Event.puts "watch: invalid interval\n".toList], 0⟩ :=
  C3_invalid_interval sample_env 3 0 [] 0 [] "abc rest".toList (by simp) (by simp) (by decide)

/-- C4: when no command is supplied (a null argument, or an input made only of
accepted `-n` flags and spaces, which includes the empty and the all-space
input), `watch_command` makes the single call
`vga_puts("Usage: watch [-n sec] <command>\n")` and returns: the trace holds
no other output, no handler call and no keyboard call. -/
theorem C4_usage {W : Type} (env : Env W) (n : Nat) (w : W)
    (pre : List (Nat × List Char)) (k : Nat) (hpre : ∀ p ∈ pre, valid_digits p.2) :
    watch_command env n none w =
        some ⟨Status.usage, [Event.puts "Usage: watch [-n sec] <command>\n".toList], w⟩ ∧
      watch_command env n (some (flags pre ++ List.replicate k ' ')) w =
        some ⟨Status.usage, [Event.puts "Usage: watch [-n sec] <command>\n".toList], w⟩ := by
  refine ⟨rfl, ?_⟩
  apply watch_command_of_usage
  have h := parse_loop_flags pre (List.replicate k ' ') hpre (no_leading_digit_spaces k) 1 2
  unfold parse_request
  rcases parse_loop_spaces 0 (last_interval 2 pre) k with h1 | h1
  · rw [h1] at h
    rw [parse_args_of_loop _ _ _ h]
  · rw [h1] at h
    rw [parse_args_of_loop _ _ _ h]

theorem C4_witness :
    watch_command sample_env 3 none 0 =
        some ⟨Status.usage, [Event.puts "Usage: watch [-n sec] <command>\n".toList], 0⟩ ∧
      watch_command sample_env 3 (some "-n 5".toList) 0 =
        some ⟨Status.usage, [Event.puts "Usage: watch [-n sec] <command>\n".toList], 0⟩ :=
  C4_usage sample_env 3 0 [(0, ['5'])] 0 (by
    intro p hp
    rw [List.mem_singleton] at hp
    subst hp
    exact ⟨by decide, by decide⟩)

/-- C5: on a command line whose first token has 40 characters and is followed
by a space, line 60 asks `strncpy` for 40 characters, more than the 31 that
`cmd_name` can hold beside its terminator; the same token without a space
after it is cut to 31 characters by line 62. -/
theorem C5_name_copy_exceeds_buffer :
    (∃ r, parse_request (some "aaaaaaaaaaaaaaaaaaaaaaaaaaaaaaaaaaaaaaaa b".toList) =
          some (Outcome.request r) ∧
        r.cmd_name = "aaaaaaaaaaaaaaaaaaaaaaaaaaaaaaaaaaaaaaaa".toList ∧
        r.cmd_name.length = 40 ∧ ¬ r.cmd_name.length ≤ CMD_NAME_SIZE - 1) ∧
      (∃ r, parse_request (some "aaaaaaaaaaaaaaaaaaaaaaaaaaaaaaaaaaaaaaaa".toList) =
          some (Outcome.request r) ∧ r.cmd_name.length = 31) :=
  ⟨⟨_, by rfl, by decide, by decide, by decide⟩, ⟨_, by rfl, by decide⟩⟩

/-- C6: whenever parsing produces a request (line 65 is reached), its interval
is positive, the accumulation `interval * 10 + digit` being reduced to 32 bits
at every step. -/
theorem C6_interval_positive (args : Option (List Char)) (r : Request)
    (h : parse_request args = some (Outcome.request r)) : 0 < r.interval := by
  cases args with
  | none => simp [parse_request, parse_args] at h
  | some s =>
    unfold parse_request at h
    cases hp : parse_args (some s) with
    | none => rw [hp] at h; simp at h
    | some p =>
      rw [hp] at h
      cases p with
      | invalid => simp at h
      | done i c =>
        have hi : 0 < i := parse_loop_pos _ 2 s i c hp (by decide)
        cases c with
        | none => simp at h
        | some cmd =>
          cases cmd with
          | nil => simp at h
          | cons x t =>
            simp only [Option.some.injEq, Outcome.request.injEq] at h
            rw [← h]
            exact hi

theorem C6_witness :
    parse_request (some "-n 4294967297 x".toList) =
        some (Outcome.request { interval := 1, full_command := ['x'], space := none,
                                cmd_name := ['x'] }) ∧
      0 < (1 : Int) :=
  ⟨by decide, C6_interval_positive (some "-n 4294967297 x".toList)
    { interval := 1, full_command := ['x'], space := none, cmd_name := ['x'] } (by decide)⟩

/-! ## Announce, dispatch and cancellation: claims C7 to C10 -/

/-- C7: with the interval 100 the header is not the decimal interval: lines
66-67 emit the characters `:` and `0`, so the output of
`watch -n 100 echo` starts with `Every :0s: echo`, not `Every 100s: echo`. -/
theorem C7_header_interval_100 :
    parse_request (some "-n 100 echo".toList) =
        some (Outcome.request { interval := 100, full_command := "echo".toList, space := none,
                                cmd_name := "echo".toList }) ∧
      ∃ res, watch_command sample_env 1 (some "-n 100 echo".toList) 26 = some res ∧
        output res.events =
          "Every :0s: echo\n(Press ESC or Ctrl+C to stop)\n\n\n[watch interrupted]\n".toList ∧
        ¬ "Every 100s: echo\n(Press ESC or Ctrl+C to stop)\n\n".toList <+: output res.events :=
  ⟨by decide, _, rfl, by decide, by decide⟩

/-- C10: the cancellation check is true exactly when `kb_check_escape()` is
true, or `kb_ctrl_pressed()` is true and the character `kb_getchar()` returns
is `c`.  It calls `kb_getchar` exactly once when escape is not pressed and
control is held, and does not call it when escape is pressed or control is not
held: the keyboard is then left as the status queries return it. -/
theorem C10_cancel_check {W : Type} (env : Env W) (w : W) (e c : Bool × W) (g : Char × W)
    (he : env.kb_check_escape w = e) (hc : env.kb_ctrl_pressed e.2 = c)
    (hg : env.kb_getchar c.2 = g) :
    ((cancel_check env w).result = true ↔ e.1 = true ∨ (c.1 = true ∧ g.1 = 'c')) ∧
      (e.1 = false ∧ c.1 = true →
        (cancel_check env w).events =
            [Event.check_escape false, Event.ctrl_pressed true, Event.getchar g.1] ∧
          (cancel_check env w).world = g.2) ∧
      (e.1 = true →
        (cancel_check env w).events = [Event.check_escape true] ∧
          (cancel_check env w).world = e.2) ∧
      (e.1 = false ∧ c.1 = false →
        (cancel_check env w).events = [Event.check_escape false, Event.ctrl_pressed false] ∧
          (cancel_check env w).world = c.2) := by
  subst he hc hg
  cases h : (env.kb_check_escape w).1 with
  | true =>
    rw [cancel_check_escape env w h]
    simp
  | false =>
    cases h2 : (env.kb_ctrl_pressed (env.kb_check_escape w).2).1 with
    | true =>
      rw [cancel_check_ctrl env w h h2]
      simp
    | false =>
      rw [cancel_check_idle env w h h2]
      simp

theorem C10_witness :
    (cancel_check typing_env "cx".toList).result = true ∧
      (cancel_check typing_env "cx".toList).events =
        [Event.check_escape false, Event.ctrl_pressed true, Event.getchar 'c'] ∧
      (cancel_check typing_env "cx".toList).world = "x".toList :=
  ⟨(C10_cancel_check typing_env "cx".toList (false, "cx".toList) (true, "cx".toList)
      ('c', "x".toList) rfl rfl rfl).1.2 (Or.inr ⟨rfl, rfl⟩),
    (C10_cancel_check typing_env "cx".toList (false, "cx".toList) (true, "cx".toList)
      ('c', "x".toList) rfl rfl rfl).2.1 ⟨rfl, rfl⟩⟩

/-! ## Lemmas on keyboard queries -/

theorem checks_append (a b : List Event) : checks (a ++ b) = checks a + checks b := by
  simp [checks, List.countP_append]

theorem flushes_append (a b : List Event) : flushes (a ++ b) = flushes a + flushes b := by
  simp [flushes, List.count_append]

theorem poll_cancel_check {W : Type} (env : Env W) (w : W) :
    ∀ e ∈ (cancel_check env w).events, e.is_poll = true := by
  cases h : (env.kb_check_escape w).1 with
  | true => rw [cancel_check_escape env w h]; simp [Event.is_poll]
  | false =>
    cases hc : (env.kb_ctrl_pressed (env.kb_check_escape w).2).1 with
    | true => rw [cancel_check_ctrl env w h hc]; simp [Event.is_poll]
    | false => rw [cancel_check_idle env w h hc]; simp [Event.is_poll]

theorem checks_cancel_check {W : Type} (env : Env W) (w : W) :
    checks (cancel_check env w).events = 1 := by
  cases h : (env.kb_check_escape w).1 with
  | true => rw [cancel_check_escape env w h]; rfl
  | false =>
    cases hc : (env.kb_ctrl_pressed (env.kb_check_escape w).2).1 with
    | true => rw [cancel_check_ctrl env w h hc]; rfl
    | false => rw [cancel_check_idle env w h hc]; rfl

theorem delay_inner_zero {W : Type} (env : Env W) (w : W) :
    delay_inner env 0 w = ⟨false, [], w⟩ := rfl

theorem delay_inner_succ {W : Type} (env : Env W) (n : Nat) (w : W) :
    delay_inner env (n + 1) w =
      if (cancel_check env w).result = true then
        ⟨true, (cancel_check env w).events, (cancel_check env w).world⟩
      else
        ⟨(delay_inner env n (cancel_check env w).world).result,
          (cancel_check env w).events ++ (delay_inner env n (cancel_check env w).world).events,
          (delay_inner env n (cancel_check env w).world).world⟩ := rfl

theorem delay_outer_succ {W : Type} (env : Env W) (n : Nat) (w : W) :
    delay_outer env (n + 1) w =
      if (delay_inner env 1000000 w).result = true then
        ⟨true, (delay_inner env 1000000 w).events, (delay_inner env 1000000 w).world⟩
      else
        ⟨(delay_outer env n (delay_inner env 1000000 w).world).result,
          (delay_inner env 1000000 w).events
            ++ (delay_outer env n (delay_inner env 1000000 w).world).events,
          (delay_outer env n (delay_inner env 1000000 w).world).world⟩ := rfl

theorem poll_delay_inner {W : Type} (env : Env W) (n : Nat) (w : W) :
    ∀ e ∈ (delay_inner env n w).events, e.is_poll = true := by
  induction n generalizing w with
  | zero => intro e he; simp [delay_inner_zero] at he
  | succ n ih =>
    rw [delay_inner_succ]
    split
    · exact poll_cancel_check env w
    · intro e he
      rcases List.mem_append.1 he with h | h
      · exact poll_cancel_check env w e h
      · exact ih _ e h

theorem poll_delay_outer {W : Type} (env : Env W) (n : Nat) (w : W) :
    ∀ e ∈ (delay_outer env n w).events, e.is_poll = true := by
  induction n generalizing w with
  | zero => intro e he; simp [delay_outer] at he
  | succ n ih =>
    rw [delay_outer_succ]
    split
    · exact poll_delay_inner env _ w
    · intro e he
      rcases List.mem_append.1 he with h | h
      · exact poll_delay_inner env _ w e h
      · exact ih _ e h

theorem flushes_of_poll (l : List Event) (h : ∀ e ∈ l, e.is_poll = true) : flushes l = 0 := by
  unfold flushes
  rw [List.count_eq_zero]
  intro hm
  have := h _ hm
  simp [Event.is_poll] at this

theorem output_of_poll (l : List Event) (h : ∀ e ∈ l, e.is_poll = true) : output l = [] := by
  induction l with
  | nil => rfl
  | cons e t ih =>
    have he := h e (by simp)
    have ht := ih (fun x hx => h x (by simp [hx]))
    cases e <;> simp [Event.is_poll] at he <;> simp [output, Event.text, ht]

theorem outcome_succ {W : Type} (env : Env W) (w : W) (k : Nat) :
    outcome env w (k + 1) = outcome env (cancel_check env w).world k := rfl

theorem delay_inner_quiet {W : Type} (env : Env W) (n : Nat) (w : W)
    (h : ∀ k, k < n → outcome env w k = false) :
    (delay_inner env n w).result = false ∧ checks (delay_inner env n w).events = n ∧
      (delay_inner env n w).world = world_after env n w := by
  induction n generalizing w with
  | zero => exact ⟨rfl, rfl, rfl⟩
  | succ n ih =>
    have h0 : (cancel_check env w).result = false := h 0 (Nat.succ_pos n)
    have hn : ∀ k, k < n → outcome env (cancel_check env w).world k = false := fun k hk => by
      rw [← outcome_succ]; exact h (k + 1) (Nat.succ_lt_succ hk)
    obtain ⟨h1, h2, h3⟩ := ih (cancel_check env w).world hn
    rw [delay_inner_succ, if_neg (by simp [h0])]
    refine ⟨h1, ?_, h3⟩
    show checks ((cancel_check env w).events ++ _) = n + 1
    rw [checks_append, checks_cancel_check, h2]
    omega

theorem delay_inner_hit {W : Type} (env : Env W) (n : Nat) (w : W) (k : Nat) (hk : k < n)
    (ht : outcome env w k = true) (hf : ∀ j, j < k → outcome env w j = false) :
    (delay_inner env n w).result = true ∧ checks (delay_inner env n w).events = k + 1 ∧
      (delay_inner env n w).world = world_after env (k + 1) w := by
  induction n generalizing w k with
  | zero => omega
  | succ n ih =>
    cases k with
    | zero =>
      have h0 : (cancel_check env w).result = true := ht
      rw [delay_inner_succ, if_pos h0]
      exact ⟨rfl, checks_cancel_check env w, rfl⟩
    | succ k =>
      have h0 : (cancel_check env w).result = false := hf 0 (Nat.succ_pos k)
      have hf2 : ∀ j, j < k → outcome env (cancel_check env w).world j = false := fun j hj => by
        rw [← outcome_succ]; exact hf (j + 1) (Nat.succ_lt_succ hj)
      obtain ⟨h1, h2, h3⟩ := ih (cancel_check env w).world k (by omega) ht hf2
      rw [delay_inner_succ, if_neg (by simp [h0])]
      refine ⟨h1, ?_, h3⟩
      show checks ((cancel_check env w).events ++ _) = k + 1 + 1
      rw [checks_append, checks_cancel_check, h2]
      omega

theorem delay_inner_add {W : Type} (env : Env W) (a b : Nat) (w : W) :
    delay_inner env (a + b) w =
      if (delay_inner env a w).result = true then
        ⟨true, (delay_inner env a w).events, (delay_inner env a w).world⟩
      else
        ⟨(delay_inner env b (delay_inner env a w).world).result,
          (delay_inner env a w).events ++ (delay_inner env b (delay_inner env a w).world).events,
          (delay_inner env b (delay_inner env a w).world).world⟩ := by
  induction a generalizing w with
  | zero =>
    rw [Nat.zero_add, delay_inner_zero]
    rfl
  | succ a ih =>
    have e : a + 1 + b = (a + b) + 1 := by omega
    rw [e, delay_inner_succ env (a + b) w, delay_inner_succ env a w]
    by_cases h0 : (cancel_check env w).result = true
    · rw [if_pos h0, if_pos h0]
      rfl
    · rw [if_neg h0, if_neg h0, ih (cancel_check env w).world]
      by_cases h1 : (delay_inner env a (cancel_check env w).world).result = true
      · simp only [h1, if_true]
      · simp only [h1, if_false, List.append_assoc]
        rfl

theorem delay_outer_flat {W : Type} (env : Env W) (s : Nat) (w : W) :
    delay_outer env s w = delay_inner env (s * 1000000) w := by
  induction s generalizing w with
  | zero =>
    rw [Nat.zero_mul]
    rfl
  | succ s ih =>
    rw [Nat.succ_mul, Nat.add_comm (s * 1000000) 1000000,
      delay_inner_add env 1000000 (s * 1000000) w, delay_outer_succ]
    simp only [ih]

/-! ## Lemmas on valid requests -/

theorem iteration_check_hit {W : Type} (env : Env W) (r : Request) (w : W) (i : Nat)
    (cmd : Command W) (hfind : find_command r.cmd_name env.commands 0 = some (i, cmd))
    (hc : (cancel_check env (cmd.func (cmd_args r) w)).result = true) :
    iteration env r w =
      ⟨Status.interrupted,
        [Event.lookup r.cmd_name, Event.call i (cmd_args r)]
          ++ (cancel_check env (cmd.func (cmd_args r) w)).events
          ++ [Event.puts MSG_INTERRUPTED, Event.flush],
        env.kb_flush (cancel_check env (cmd.func (cmd_args r) w)).world⟩ := by
  unfold iteration
  simp only [hfind, hc, if_true]

theorem iteration_delay_hit {W : Type} (env : Env W) (r : Request) (w : W) (i : Nat)
    (cmd : Command W) (hfind : find_command r.cmd_name env.commands 0 = some (i, cmd))
    (hc : (cancel_check env (cmd.func (cmd_args r) w)).result = false)
    (hd : (delay_with_escape env (to_unsigned r.interval)
      (cancel_check env (cmd.func (cmd_args r) w)).world).result = true) :
    iteration env r w =
      ⟨Status.interrupted,
        [Event.lookup r.cmd_name, Event.call i (cmd_args r)]
          ++ (cancel_check env (cmd.func (cmd_args r) w)).events
          ++ (delay_with_escape env (to_unsigned r.interval)
              (cancel_check env (cmd.func (cmd_args r) w)).world).events
          ++ [Event.puts MSG_INTERRUPTED, Event.flush],
        env.kb_flush (delay_with_escape env (to_unsigned r.interval)
          (cancel_check env (cmd.func (cmd_args r) w)).world).world⟩ := by
  unfold iteration
  simp only [hfind, hc, hd, if_true, Bool.false_eq_true, if_false]

theorem iteration_running {W : Type} (env : Env W) (r : Request) (w : W) (i : Nat)
    (cmd : Command W) (hfind : find_command r.cmd_name env.commands 0 = some (i, cmd))
    (hc : (cancel_check env (cmd.func (cmd_args r) w)).result = false)
    (hd : (delay_with_escape env (to_unsigned r.interval)
      (cancel_check env (cmd.func (cmd_args r) w)).world).result = false) :
    iteration env r w =
      ⟨Status.running,
        [Event.lookup r.cmd_name, Event.call i (cmd_args r)]
          ++ (cancel_check env (cmd.func (cmd_args r) w)).events
          ++ (delay_with_escape env (to_unsigned r.interval)
              (cancel_check env (cmd.func (cmd_args r) w)).world).events
          ++ [Event.puts MSG_SEPARATOR],
        (delay_with_escape env (to_unsigned r.interval)
          (cancel_check env (cmd.func (cmd_args r) w)).world).world⟩ := by
  unfold iteration
  simp only [hfind, hc, hd, Bool.false_eq_true, if_false]

theorem poll_delay {W : Type} (env : Env W) (s : Nat) (w : W) :
    ∀ e ∈ (delay_with_escape env s w).events, e.is_poll = true :=
  poll_delay_outer env s w

theorem watch_loop_stop {W : Type} (env : Env W) (r : Request) (n : Nat) (w : W)
    (h : (iteration env r w).status ≠ Status.running) :
    watch_loop env r (n + 1) w = iteration env r w := by
  rw [watch_loop]
  cases hs : (iteration env r w).status <;> simp_all

theorem watch_loop_continue {W : Type} (env : Env W) (r : Request) (n : Nat) (w : W)
    (h : (iteration env r w).status = Status.running) :
    watch_loop env r (n + 1) w =
      ⟨(watch_loop env r n (iteration env r w).world).status,
        (iteration env r w).events ++ (watch_loop env r n (iteration env r w).world).events,
        (watch_loop env r n (iteration env r w).world).world⟩ := by
  rw [watch_loop]
  simp only [h]

/-- The trace of an iteration that does not end the loop holds no flush; the
trace of an iteration that ends as interrupted holds one flush and ends with
the interruption message and the flush. -/
theorem iteration_flush {W : Type} (env : Env W) (r : Request) (w : W) :
    ((iteration env r w).status = Status.running → flushes (iteration env r w).events = 0) ∧
      ((iteration env r w).status = Status.interrupted →
        flushes (iteration env r w).events = 1 ∧
          ∃ pre, (iteration env r w).events =
            pre ++ [Event.puts MSG_INTERRUPTED, Event.flush]) := by
  cases hfind : find_command r.cmd_name env.commands 0 with
  | none =>
    rw [iteration_not_found env r w hfind]
    exact ⟨fun h => by simp at h, fun h => by simp at h⟩
  | some p =>
    obtain ⟨i, cmd⟩ := p
    have hp := poll_cancel_check env (cmd.func (cmd_args r) w)
    have hq := poll_delay env (to_unsigned r.interval)
      (cancel_check env (cmd.func (cmd_args r) w)).world
    cases hc : (cancel_check env (cmd.func (cmd_args r) w)).result with
    | true =>
      rw [iteration_check_hit env r w i cmd hfind hc]
      refine ⟨fun h => by simp at h, fun _ => ⟨?_, _, rfl⟩⟩
      rw [flushes_append, flushes_append, flushes_of_poll _ hp]
      rfl
    | false =>
      cases hd : (delay_with_escape env (to_unsigned r.interval)
          (cancel_check env (cmd.func (cmd_args r) w)).world).result with
      | true =>
        rw [iteration_delay_hit env r w i cmd hfind hc hd]
        refine ⟨fun h => by simp at h, fun _ => ⟨?_, _, rfl⟩⟩
        rw [flushes_append, flushes_append, flushes_append, flushes_of_poll _ hp,
          flushes_of_poll _ hq]
        rfl
      | false =>
        rw [iteration_running env r w i cmd hfind hc hd]
        refine ⟨fun _ => ?_, fun h => by simp at h⟩
        rw [flushes_append, flushes_append, flushes_append, flushes_of_poll _ hp,
          flushes_of_poll _ hq]
        rfl

theorem watch_loop_flush {W : Type} (env : Env W) (r : Request) (n : Nat) (w : W) :
    ((watch_loop env r n w).status = Status.running →
        flushes (watch_loop env r n w).events = 0) ∧
      ((watch_loop env r n w).status = Status.interrupted →
        flushes (watch_loop env r n w).events = 1 ∧
          ∃ pre, (watch_loop env r n w).events =
            pre ++ [Event.puts MSG_INTERRUPTED, Event.flush]) := by
  induction n generalizing w with
  | zero => exact ⟨fun _ => rfl, fun h => by simp [watch_loop] at h⟩
  | succ n ih =>
    by_cases hs : (iteration env r w).status = Status.running
    · rw [watch_loop_continue env r n w hs]
      have h0 := (iteration_flush env r w).1 hs
      obtain ⟨ih1, ih2⟩ := ih (iteration env r w).world
      constructor
      · intro h
        show flushes (_ ++ _) = 0
        rw [flushes_append, h0, ih1 h]
      · intro h
        obtain ⟨h1, pre, h2⟩ := ih2 h
        constructor
        · show flushes (_ ++ _) = 1
          rw [flushes_append, h0, h1]
        · refine ⟨(iteration env r w).events ++ pre, ?_⟩
          show _ ++ _ = _
          rw [h2, List.append_assoc]
    · rw [watch_loop_stop env r n w hs]
      exact ⟨fun h => absurd h hs, (iteration_flush env r w).2⟩

theorem flushes_announce (r : Request) : flushes (announce r) = 0 := by
  unfold flushes
  rw [List.count_eq_zero]
  intro hm
  have := keyboard_announce r _ hm
  simp [Event.is_keyboard] at this

/-! ## The main loop: claims C11 to C15 -/

/-- C11: `delay_with_escape(s)` is a total function of the keyboard.  It
returns 1 exactly when one of the first `s * 1000000` evaluations of the
cancellation condition is true; it then has made exactly `k + 1` evaluations,
`k` being the index of the first true one; otherwise it returns 0 after
exactly `s * 1000000` evaluations. -/
theorem C11_delay_with_escape {W : Type} (env : Env W) (s : Nat) (w : W) :
    ((delay_with_escape env s w).result = true ↔
        ∃ k, k < s * 1000000 ∧ outcome env w k = true) ∧
      (∀ k, k < s * 1000000 → outcome env w k = true →
        (∀ j, j < k → outcome env w j = false) →
        (delay_with_escape env s w).result = true ∧
          checks (delay_with_escape env s w).events = k + 1 ∧
          (delay_with_escape env s w).world = world_after env (k + 1) w) ∧
      ((∀ k, k < s * 1000000 → outcome env w k = false) →
        (delay_with_escape env s w).result = false ∧
          checks (delay_with_escape env s w).events = s * 1000000 ∧
          (delay_with_escape env s w).world = world_after env (s * 1000000) w) := by
  have e : delay_with_escape env s w = delay_inner env (s * 1000000) w :=
    delay_outer_flat env s w
  rw [e]
  refine ⟨⟨?_, ?_⟩, ?_, ?_⟩
  · intro hr
    by_contra hne
    have hq : ∀ k, k < s * 1000000 → outcome env w k = false := fun k hk => by
      cases ho : outcome env w k with
      | false => rfl
      | true => exact absurd ⟨k, hk, ho⟩ hne
    rw [(delay_inner_quiet env _ w hq).1] at hr
    exact Bool.false_ne_true hr
  · intro hex
    have hex2 : ∃ k, k < s * 1000000 ∧ outcome env w k = true := hex
    have hmin : ∀ m, m < Nat.find hex2 → ¬ (m < s * 1000000 ∧ outcome env w m = true) :=
      fun m hm => Nat.find_min hex2 hm
    obtain ⟨hk, ht⟩ := Nat.find_spec hex2
    refine (delay_inner_hit env _ w (Nat.find hex2) hk ht ?_).1
    intro j hj
    cases ho : outcome env w j with
    | false => rfl
    | true => exact absurd ⟨lt_trans hj hk, ho⟩ (hmin j hj)
  · intro k hk ht hf
    exact delay_inner_hit env _ w k hk ht hf
  · intro hq
    exact delay_inner_quiet env _ w hq

theorem C11_witness :
    (delay_with_escape counting_env 2 0).result = true ∧
      checks (delay_with_escape counting_env 2 0).events = 4 ∧
      (delay_with_escape counting_env 2 0).world = 4 :=
  (C11_delay_with_escape counting_env 2 0).2.1 3 (by decide) (by decide) (by decide)

/-- C12: when the check that follows the handler is true, the loop returns in
that iteration after one evaluation of the condition (the delay is not run),
with the message `\n[watch interrupted]\n` and one flush; when it is false and
the delay reports cancellation, the loop returns after the delay's checks with
the same message and one flush.  Every run that ends as interrupted holds
exactly one `kb_flush()` and its trace ends with that message followed by the
flush: no separator and no handler call come after them. -/
theorem C12_interrupted {W : Type} (env : Env W) (r : Request) (n : Nat) (w : W) (i : Nat)
    (cmd : Command W) (hfind : find_command r.cmd_name env.commands 0 = some (i, cmd)) :
    ((cancel_check env (cmd.func (cmd_args r) w)).result = true →
        watch_loop env r (n + 1) w =
            ⟨Status.interrupted,
              [Event.lookup r.cmd_name, Event.call i (cmd_args r)]
                ++ (cancel_check env (cmd.func (cmd_args r) w)).events
                ++ [Event.puts "\n[watch interrupted]\n".toList, Event.flush],
              env.kb_flush (cancel_check env (cmd.func (cmd_args r) w)).world⟩ ∧
          checks (watch_loop env r (n + 1) w).events = 1) ∧
      ((cancel_check env (cmd.func (cmd_args r) w)).result = false →
        (delay_with_escape env (to_unsigned r.interval)
          (cancel_check env (cmd.func (cmd_args r) w)).world).result = true →
        watch_loop env r (n + 1) w =
          ⟨Status.interrupted,
            [Event.lookup r.cmd_name, Event.call i (cmd_args r)]
              ++ (cancel_check env (cmd.func (cmd_args r) w)).events
              ++ (delay_with_escape env (to_unsigned r.interval)
                  (cancel_check env (cmd.func (cmd_args r) w)).world).events
              ++ [Event.puts "\n[watch interrupted]\n".toList, Event.flush],
            env.kb_flush (delay_with_escape env (to_unsigned r.interval)
              (cancel_check env (cmd.func (cmd_args r) w)).world).world⟩) ∧
      (∀ (m : Nat) (args : Option (List Char)) (w1 : W) (res : Result W),
        watch_command env m args w1 = some res → res.status = Status.interrupted →
        flushes res.events = 1 ∧
          ∃ pre, res.events =
            pre ++ [Event.puts "\n[watch interrupted]\n".toList, Event.flush]) := by
  refine ⟨?_, ?_, ?_⟩
  · intro hc
    have hi := iteration_check_hit env r w i cmd hfind hc
    have hl : watch_loop env r (n + 1) w = iteration env r w :=
      watch_loop_stop env r n w (by rw [hi]; simp)
    rw [hl, hi]
    refine ⟨rfl, ?_⟩
    show checks (_ ++ _ ++ _) = 1
    rw [checks_append, checks_append, checks_cancel_check]
    rfl
  · intro hc hd
    have hi := iteration_delay_hit env r w i cmd hfind hc hd
    have hl : watch_loop env r (n + 1) w = iteration env r w :=
      watch_loop_stop env r n w (by rw [hi]; simp)
    rw [hl, hi]
    rfl
  · intro m args w1 res hres hs
    obtain ⟨o, ho⟩ := parse_request_total args
    cases o with
    | invalid_interval =>
      rw [watch_command_of_invalid env m args w1 ho] at hres
      simp only [Option.some.injEq] at hres
      rw [← hres] at hs
      simp at hs
    | usage =>
      rw [watch_command_of_usage env m args w1 ho] at hres
      simp only [Option.some.injEq] at hres
      rw [← hres] at hs
      simp at hs
    | request r1 =>
      rw [watch_command_of_request env m args w1 r1 ho] at hres
      simp only [Option.some.injEq] at hres
      rw [← hres] at hs ⊢
      obtain ⟨h1, pre, h2⟩ := (watch_loop_flush env r1 m w1).2 hs
      constructor
      · show flushes (_ ++ _) = 1
        rw [flushes_append, flushes_announce, h1]
      · refine ⟨announce r1 ++ pre, ?_⟩
        show _ ++ _ = _
        rw [h2, List.append_assoc]
        rfl

theorem C12_witness :
    (watch_loop sample_env
        { interval := 1, full_command := "echo".toList, space := none,
          cmd_name := "echo".toList } 1 26).events =
        [Event.lookup "echo".toList, Event.call 1 none, Event.check_escape true,
          Event.puts "\n[watch interrupted]\n".toList, Event.flush] ∧
      checks (watch_loop sample_env
        { interval := 1, full_command := "echo".toList, space := none,
          cmd_name := "echo".toList } 1 26).events = 1 :=
  ⟨congrArg Result.events
      ((C12_interrupted sample_env
        { interval := 1, full_command := "echo".toList, space := none,
          cmd_name := "echo".toList } 0 26 1 ⟨"echo".toList, fun _ w => w + 10⟩ rfl).1 rfl).1,
    ((C12_interrupted sample_env
        { interval := 1, full_command := "echo".toList, space := none,
          cmd_name := "echo".toList } 0 26 1 ⟨"echo".toList, fun _ w => w + 10⟩ rfl).1 rfl).2⟩

/-- After accepted flags, a flag whose digits denote a number of `1 .. 2^31-1`
and a command give a request with that number as interval. -/
theorem parse_request_flags_command (pre : List (Nat × List Char)) (k : Nat)
    (d rest : List Char) (hpre : ∀ p ∈ pre, valid_digits p.2)
    (hd : ∀ x ∈ d, is_digit x = true)
    (hlo : 1 ≤ digits_value d) (hhi : digits_value d ≤ 2 ^ 31 - 1)
    (hrest : leading_digit rest = false) (hne : skip_spaces rest ≠ [])
    (hflag : ¬ "-n ".toList <+: skip_spaces rest) :
    parse_request (some (flags pre ++ (flag k d ++ rest))) =
      some (Outcome.request (build_request (digits_value d) (skip_spaces rest))) := by
  have hw : wrap32 (digits_value d) = (digits_value d : Int) :=
    wrap32_of_range _ (by omega) (by omega)
  have h1 : parse_loop (pre.length + 2) 2 (flags pre ++ (flag k d ++ rest)) =
      some (Parsed.done (digits_value d : Int) (some (skip_spaces rest))) := by
    rw [parse_loop_flags pre _ hpre (no_leading_digit_flag k d rest) 2 2,
      parse_loop_flag 1 _ k d rest hd hrest, hw, if_neg (by omega),
      parse_loop_command 0 _ rest hne hflag]
  exact parse_request_of_command _ _ _ hne (parse_args_of_loop _ _ _ h1)

/-- C16: flags are processed from left to right.  After any accepted flags, a
last flag whose digits denote a number of `1 .. 2^31-1`, followed by a
command, gives a request whose interval is that number and whose command line
is the command; and a flag with no digits or only zeros gives the
invalid-interval result whatever follows it, later valid flags included. -/
theorem C16_several_flags (pre : List (Nat × List Char)) (k : Nat) (d rest : List Char)
    (pre2 : List (Nat × List Char)) (k2 : Nat) (z tail : List Char)
    (hpre : ∀ p ∈ pre, valid_digits p.2)
    (hd : ∀ x ∈ d, is_digit x = true)
    (hlo : 1 ≤ digits_value d) (hhi : digits_value d ≤ 2 ^ 31 - 1)
    (hrest : leading_digit rest = false)
    (hne : rest.dropWhile (fun x => x = ' ') ≠ [])
    (hflag : ¬ "-n ".toList <+: rest.dropWhile (fun x => x = ' '))
    (hpre2 : ∀ p ∈ pre2, ∀ x ∈ p.2, is_digit x = true)
    (hz : ∀ x ∈ z, x = '0') (htail : leading_digit tail = false) :
    parse_request (some (flags pre ++ (flag k d ++ rest))) =
        some (Outcome.request
          (build_request (digits_value d) (rest.dropWhile (fun x => x = ' ')))) ∧
      (build_request (digits_value d) (rest.dropWhile (fun x => x = ' '))).interval =
        digits_value d ∧
      (build_request (digits_value d) (rest.dropWhile (fun x => x = ' '))).full_command =
        (rest.dropWhile (fun x => x = ' ')).take 255 ∧
      parse_request (some (flags pre2 ++ (flag k2 z ++ tail))) =
        some Outcome.invalid_interval := by
  refine ⟨?_, rfl, rfl, ?_⟩
  · rw [← skip_spaces_eq] at hne hflag ⊢
    exact parse_request_flags_command pre k d rest hpre hd hlo hhi hrest hne hflag
  · have h := parse_args_of_loop _ _ _ (parse_loop_zero_flag pre2 k2 z tail hpre2 hz htail 0 2)
    unfold parse_request
    rw [h]

theorem C16_witness :
    parse_request (some "-n 3 -n 7 echo".toList) =
        some (Outcome.request { interval := 7, full_command := "echo".toList, space := none,
                                cmd_name := "echo".toList }) ∧
      parse_request (some "-n 0 -n 7 echo".toList) = some Outcome.invalid_interval :=
  ⟨(C16_several_flags [(0, ['3'])] 1 ['7'] " echo".toList [] 0 ['0'] " -n 7 echo".toList
      (by
        intro p hp
        rw [List.mem_singleton] at hp
        subst hp
        exact ⟨by decide, by decide⟩)
      (by decide) (by decide) (by decide) (by decide) (by decide) (by decide)
      (by simp) (by decide) (by decide)).1,
    (C16_several_flags [(0, ['3'])] 1 ['7'] " echo".toList [] 0 ['0'] " -n 7 echo".toList
      (by
        intro p hp
        rw [List.mem_singleton] at hp
        subst hp
        exact ⟨by decide, by decide⟩)
      (by decide) (by decide) (by decide) (by decide) (by decide) (by decide)
      (by simp) (by decide) (by decide)).2.2.2⟩

/-- C18: for a digit string `d` denoting a number of `1 .. 2^31-1` and a
non-empty command line `c` that starts neither with a digit, nor with a space,
nor with `-n `, parsing `"-n " ++ d ++ c` gives the same result as parsing
`"-n " ++ d ++ " " ++ c`: the request with that interval built from `c`. -/
theorem C18_space_optional (d c : List Char)
    (hd : ∀ x ∈ d, is_digit x = true)
    (hlo : 1 ≤ digits_value d) (hhi : digits_value d ≤ 2 ^ 31 - 1)
    (hne : c ≠ []) (hdig : leading_digit c = false) (hsp : c.head? ≠ some ' ')
    (hflag : ¬ "-n ".toList <+: c) :
    parse_request (some ("-n ".toList ++ d ++ c)) =
        parse_request (some ("-n ".toList ++ d ++ " ".toList ++ c)) ∧
      parse_request (some ("-n ".toList ++ d ++ c)) =
        some (Outcome.request (build_request (digits_value d) c)) := by
  have hsk : skip_spaces c = c := skip_spaces_of_head c hsp
  have hsk2 : skip_spaces (' ' :: c) = c := by
    have : skip_spaces (' ' :: c) = skip_spaces c := by simp [skip_spaces]
    rw [this, hsk]
  have e1 : "-n ".toList ++ d ++ c = flags [] ++ (flag 0 d ++ c) := by
    simp [flag, flags]
  have e2 : "-n ".toList ++ d ++ " ".toList ++ c = flags [] ++ (flag 0 d ++ (' ' :: c)) := by
    simp [flag, flags]
  have h1 := parse_request_flags_command [] 0 d c (by simp) hd hlo hhi hdig
    (by rw [hsk]; exact hne) (by rw [hsk]; exact hflag)
  have h2 := parse_request_flags_command [] 0 d (' ' :: c) (by simp) hd hlo hhi
    (no_leading_digit_cons _ _ (by decide)) (by rw [hsk2]; exact hne)
    (by rw [hsk2]; exact hflag)
  rw [hsk] at h1
  rw [hsk2] at h2
  rw [e1, e2, h1, h2]
  exact ⟨rfl, rfl⟩

theorem C18_witness :
    parse_request (some "-n 5echo hi".toList) = parse_request (some "-n 5 echo hi".toList) ∧
      parse_request (some "-n 5echo hi".toList) =
        some (Outcome.request { interval := 5, full_command := "echo hi".toList,
                                space := some 4, cmd_name := "echo".toList }) :=
  C18_space_optional ['5'] "echo hi".toList (by decide) (by decide) (by decide) (by decide)
    (by decide) (by decide) (by decide)

end Watch
